import Mathlib

/- Shallow embedding of the blackjack simulation (src/blackjack.py):
   cards, shoe, hands, the per-round engine and the tabular Q-learner.
   Randomness in the source (the shuffle, the random strategy, the
   epsilon-greedy draws) is modelled by passing the shuffled card order and
   the per-decision policy answers as explicit oracle parameters.
   Python reference mutation is modelled by explicit state passing; monetary
   amounts (float in the source, used only with halves) are rationals; a
   Python IndexError from over-drawing a deque is modelled by Option. -/

namespace Blackjack

-- game constants (blackjack.py lines 22-33)
def CARDS_PER_DECK : Nat := 52

def MAX_RESPLIT : Nat := 4

def MAX_TABLE_SPOTS : Nat := 7

def DEALER_HITS_SOFT_17 : Bool := false

def TEN_CARDS : List Nat := [10, 11, 12, 13]

def DEFAULT_BET : ℚ := 100

def DEFAULT_STAKE : ℚ := 100000

def Q_LEARN_GAMMA : ℚ := 1

-- enum of card values (class CardValue)
inductive CardValue
  | ACE
  | TWO
  | THREE
  | FOUR
  | FIVE
  | SIX
  | SEVEN
  | EIGHT
  | NINE
  | TEN
  | JACK
  | QUEEN
  | KING
deriving DecidableEq

-- the .value attribute of the CardValue enum member
def CardValue.value : CardValue → Nat
  | .ACE => 1
  | .TWO => 2
  | .THREE => 3
  | .FOUR => 4
  | .FIVE => 5
  | .SIX => 6
  | .SEVEN => 7
  | .EIGHT => 8
  | .NINE => 9
  | .TEN => 10
  | .JACK => 11
  | .QUEEN => 12
  | .KING => 13

-- CardValue.as_char: one-char representation keyed on the enum value
def CardValue.as_char : Nat → String
  | 1 => "A"
  | 2 => "2"
  | 3 => "3"
  | 4 => "4"
  | 5 => "5"
  | 6 => "6"
  | 7 => "7"
  | 8 => "8"
  | 9 => "9"
  | 10 => "T"
  | 11 => "J"
  | 12 => "Q"
  | 13 => "K"
  | _ => ""

-- enum of card suits (class CardSuit)
inductive CardSuit
  | CLUBS
  | DIAMONDS
  | HEARTS
  | SPADES
deriving DecidableEq

-- class Card: a single card
structure Card where
  value : CardValue
  suit : CardSuit
deriving DecidableEq

-- Card.is_paint: whether a card is a ten, jack, queen, or king
def Card.is_paint (c : Card) : Bool :=
  decide (c.value ∈ [CardValue.TEN, CardValue.JACK, CardValue.QUEEN, CardValue.KING])

-- Card.is_ace: whether a card is an ace
def Card.is_ace (c : Card) : Bool :=
  decide (c.value = CardValue.ACE)

def CardValue.all : List CardValue :=
  [.ACE, .TWO, .THREE, .FOUR, .FIVE, .SIX, .SEVEN, .EIGHT, .NINE, .TEN, .JACK, .QUEEN, .KING]

def CardSuit.all : List CardSuit :=
  [.CLUBS, .DIAMONDS, .HEARTS, .SPADES]

-- class Deck: the 52 cards, in the construction order of Deck.__init__
-- (outer loop over suits, inner loop over values)
def deck_cards : List Card :=
  CardSuit.all.foldr (fun s acc => CardValue.all.map (fun v => Card.mk v s) ++ acc) []

-- class Shoe
structure Shoe where
  cards : List Card
  cut_card_pos : Nat
  cut_card_out : Bool

-- popping `number` cards one at a time off the front of the deque;
-- popping from an empty deque raises IndexError in Python, modelled as none
def deque_popleft : Nat → List Card → Option (List Card × List Card)
  | 0, cs => some ([], cs)
  | _ + 1, [] => none
  | n + 1, c :: cs => (deque_popleft n cs).map (fun r => (c :: r.1, r.2))

-- Shoe.deal_cards: the cut-card check happens before the pop loop, on the
-- pre-removal count (Python int subtraction can go negative there; with
-- number beyond the remaining count the pop loop then raises, so the
-- truncated Nat subtraction is only ever observed on successful deals)
def Shoe.deal_cards (s : Shoe) (number : Nat) : Option (List Card × Shoe) :=
  let out := s.cut_card_out || decide (s.cards.length - number ≤ s.cut_card_pos)
  (deque_popleft number s.cards).map
    (fun r => (r.1, { cards := r.2, cut_card_pos := s.cut_card_pos, cut_card_out := out }))

-- Shoe.__init__: the shuffled multi-deck order is passed in as the oracle
-- `shuffled` (random.shuffle produces some permutation of `decks` decks);
-- construction then burns one card via deal_cards(1)
def Shoe.build (decks : Nat) (shuffled : List Card) (cut_card_pos : Nat) : Option Shoe :=
  ((Shoe.mk shuffled cut_card_pos false).deal_cards 1).map (fun r => r.2)

-- class Hand (base class, used directly for the dealer's hand)
structure Hand where
  cards : List Card

-- the all-aces-low sum appearing inline in is_soft, is_bust and get_sum:
-- each card counts c.value.value unless that value is in TEN_CARDS (10)
def Hand.aces_low_sum (h : Hand) : Nat :=
  (h.cards.map (fun c => if c.value.value ∈ TEN_CARDS then 10 else c.value.value)).sum

-- Hand.is_soft
def Hand.is_soft (h : Hand) : Bool :=
  h.cards.any (fun c => c.is_ace) && decide (h.aces_low_sum ≤ 11)

-- Hand.is_bust: above 21 with every ace counted low
def Hand.is_bust (h : Hand) : Bool :=
  decide (21 < h.aces_low_sum)

-- Hand.is_bj: looks only at cards[0] and cards[1]; a hand of fewer than two
-- cards raises IndexError in the source and is never interrogated in play,
-- modelled here as false
def Hand.is_bj (h : Hand) : Bool :=
  match h.cards with
  | c0 :: c1 :: _ => (c0.is_ace && c1.is_paint) || (c0.is_paint && c1.is_ace)
  | _ => false

-- Hand.get_sum: count one ace high unless it busts the hand
def Hand.get_sum (h : Hand) : Nat :=
  if h.aces_low_sum ≤ 11 ∧ CardValue.ACE ∈ h.cards.map (fun c => c.value) then
    h.aces_low_sum + 10
  else
    h.aces_low_sum

-- DealerHand.dealer_hits (DealerHand only adds this method to Hand)
def Hand.dealer_hits (h : Hand) : Bool :=
  if !h.is_soft then
    decide (h.get_sum < 17)
  else if DEALER_HITS_SOFT_17 then
    decide (h.get_sum ≤ 17)
  else
    decide (h.get_sum < 17)

-- class Decision: a recorded binary choice; key building per Decision.__get_key
structure Decision where
  key : String
  value : Bool
  size : Nat
deriving DecidableEq

-- class EvaluatedDecision: a decision together with the realized result
structure EvaluatedDecision where
  key : String
  value : Bool
  size : Nat
  result : ℚ
  number_discount_steps : Nat
deriving DecidableEq

-- class PlayerHand(Hand)
structure PlayerHand where
  cards : List Card
  bet : ℚ
  is_doubled : Bool
  pair_decisions : List Decision
  double_decisions : List Decision
  hit_stand_decisions : List Decision
deriving DecidableEq

-- PlayerHand.__init__(cards, bet)
def PlayerHand.make (cards : List Card) (bet : ℚ) : PlayerHand :=
  { cards := cards, bet := bet, is_doubled := false,
    pair_decisions := [], double_decisions := [], hit_stand_decisions := [] }

def PlayerHand.toHand (h : PlayerHand) : Hand :=
  Hand.mk h.cards

-- inherited Hand methods on PlayerHand
def PlayerHand.is_bust (h : PlayerHand) : Bool := h.toHand.is_bust

def PlayerHand.is_bj (h : PlayerHand) : Bool := h.toHand.is_bj

def PlayerHand.is_soft (h : PlayerHand) : Bool := h.toHand.is_soft

def PlayerHand.get_sum (h : PlayerHand) : Nat := h.toHand.get_sum

-- PlayerHand.is_pair: compares the first two cards (hands reaching the
-- splitting phase always hold exactly two cards); fewer than two cards
-- would raise IndexError in the source, modelled as false
def PlayerHand.is_pair (h : PlayerHand) : Bool :=
  match h.cards with
  | c0 :: c1 :: _ => decide (c0.value = c1.value)
  | _ => false

-- PlayerHand.split(new_cards): two fresh hands from cards[0]/cards[1] and
-- new_cards[0]/new_cards[1], each carrying the original bet
def PlayerHand.split (h : PlayerHand) (new_cards : List Card) : Option (PlayerHand × PlayerHand) :=
  match h.cards, new_cards with
  | c0 :: c1 :: _, n0 :: n1 :: _ =>
    some (PlayerHand.make [c0, n0] h.bet, PlayerHand.make [c1, n1] h.bet)
  | _, _ => none

-- Decision.__init__(player_hand, dealer_card, value) with Decision.__get_key
def Decision.get_key (player_hand : PlayerHand) (dealer_card : Card) : String :=
  let player_vals := player_hand.cards.map (fun c => CardValue.as_char c.value.value)
  let dealer_val := CardValue.as_char dealer_card.value.value
  String.join (player_vals.map (fun v => v ++ "_")) ++ dealer_val

def Decision.make (player_hand : PlayerHand) (dealer_card : Card) (value : Bool) : Decision :=
  { key := Decision.get_key player_hand dealer_card,
    value := value,
    size := player_hand.cards.length }

-- EvaluatedDecision.__init__(decision, result, number_steps)
def EvaluatedDecision.make (decision : Decision) (result : ℚ) (number_steps : Nat) : EvaluatedDecision :=
  { key := decision.key, value := decision.value, size := decision.size,
    result := result, number_discount_steps := number_steps }

-- enum PlayerStrategy
inductive PlayerStrategy
  | BASIC
  | RANDOM
  | Q_LEARN
deriving DecidableEq

-- class Player
structure Player where
  name : String
  money : ℚ
  strategy : PlayerStrategy
  takes_insurance : Bool
deriving DecidableEq

-- Player.get_bet_amount
def Player.get_bet_amount (_p : Player) : ℚ := DEFAULT_BET

-- Player.lose(amt)
def Player.lose (amt : ℚ) (p : Player) : Player :=
  { p with money := p.money - amt }

-- Player.win(amt)
def Player.win (amt : ℚ) (p : Player) : Player :=
  { p with money := p.money + amt }

-- totals entry [number true, total reward, number false, total reward]
structure DecisionTotals where
  number_true : Nat
  reward_true : ℚ
  number_false : Nat
  reward_false : ℚ
deriving DecidableEq

def DecisionTotals.zero : DecisionTotals :=
  { number_true := 0, reward_true := 0, number_false := 0, reward_false := 0 }

-- class QLearner; the defaultdicts are modelled as total functions with the
-- default built in: the totals default to [0, 0, 0, 0] and the decision
-- values default to the pseudo-random boolean the defaultdict would have
-- cached on first access, supplied up front as an arbitrary initial table
structure QLearner where
  insurance_decisions : List EvaluatedDecision
  split_decisions : List EvaluatedDecision
  double_decisions : List EvaluatedDecision
  hit_stand_decisions : List EvaluatedDecision
  insurance_decision_totals : String → DecisionTotals
  split_decision_totals : String → DecisionTotals
  double_decision_totals : String → DecisionTotals
  hit_stand_decision_totals : String → DecisionTotals
  insurance_decision_values : String → Bool
  split_decision_values : String → Bool
  double_decision_values : String → Bool
  hit_stand_decision_values : String → Bool

-- QLearner.__init__ given the pseudo-random initial value tables
def QLearner.make (init_insurance init_split init_double init_hit_stand : String → Bool) : QLearner :=
  { insurance_decisions := [], split_decisions := [],
    double_decisions := [], hit_stand_decisions := [],
    insurance_decision_totals := fun _ => DecisionTotals.zero,
    split_decision_totals := fun _ => DecisionTotals.zero,
    double_decision_totals := fun _ => DecisionTotals.zero,
    hit_stand_decision_totals := fun _ => DecisionTotals.zero,
    insurance_decision_values := init_insurance,
    split_decision_values := init_split,
    double_decision_values := init_double,
    hit_stand_decision_values := init_hit_stand }

-- the shared loop body of QLearner.update_split_decision_values,
-- update_double_decision_values and update_hit_stand_decision_values
-- (three textually identical methods in the source)
def decision_update_step (acc : (String → DecisionTotals) × (String → Bool))
    (decision : EvaluatedDecision) : (String → DecisionTotals) × (String → Bool) :=
  let tot := acc.1
  let vals := acc.2
  let key := decision.key
  let t := tot key
  let t1 :=
    if decision.value then
      { t with number_true := t.number_true + 1,
               reward_true := t.reward_true +
                 decision.result * Q_LEARN_GAMMA ^ decision.number_discount_steps }
    else
      { t with number_false := t.number_false + 1,
               reward_false := t.reward_false +
                 decision.result * Q_LEARN_GAMMA ^ decision.number_discount_steps }
  let tot1 := fun k => if k = key then t1 else tot k
  -- if there is data for both choices, update the decision value
  let vals1 :=
    if t1.number_true ≠ 0 ∧ t1.number_false ≠ 0 then
      let avg_true_result := t1.reward_true / (t1.number_true : ℚ)
      let avg_false_result := t1.reward_false / (t1.number_false : ℚ)
      let new_val := decide (avg_false_result < avg_true_result)
      let old_val := vals key
      if new_val ≠ old_val then (fun k => if k = key then new_val else vals k) else vals
    else vals
  (tot1, vals1)

-- QLearner.update_split_decision_values
def QLearner.update_split_decision_values (q : QLearner) : QLearner :=
  let r := q.split_decisions.foldl decision_update_step
    (q.split_decision_totals, q.split_decision_values)
  { q with split_decision_totals := r.1, split_decision_values := r.2,
           split_decisions := [] }

-- QLearner.update_double_decision_values
def QLearner.update_double_decision_values (q : QLearner) : QLearner :=
  let r := q.double_decisions.foldl decision_update_step
    (q.double_decision_totals, q.double_decision_values)
  { q with double_decision_totals := r.1, double_decision_values := r.2,
           double_decisions := [] }

-- QLearner.update_hit_stand_decision_values
def QLearner.update_hit_stand_decision_values (q : QLearner) : QLearner :=
  let r := q.hit_stand_decisions.foldl decision_update_step
    (q.hit_stand_decision_totals, q.hit_stand_decision_values)
  { q with hit_stand_decision_totals := r.1, hit_stand_decision_values := r.2,
           hit_stand_decisions := [] }

-- PlayerHand.process_decisions(did_win, q): evaluates every recorded
-- decision of the hand with reward +-bet and the card-count discount
-- horizon, and appends them to the global learner's pending lists
def PlayerHand.process_decisions (h : PlayerHand) (did_win : Bool) (q : QLearner) : QLearner :=
  let reward := if did_win then h.bet else -h.bet
  { q with
    split_decisions := q.split_decisions ++
      h.pair_decisions.map (fun d => EvaluatedDecision.make d reward (h.cards.length - d.size)),
    double_decisions := q.double_decisions ++
      h.double_decisions.map (fun d => EvaluatedDecision.make d reward (h.cards.length - d.size)),
    hit_stand_decisions := q.hit_stand_decisions ++
      h.hit_stand_decisions.map (fun d => EvaluatedDecision.make d reward (h.cards.length - d.size)) }

-- class Spot: the source stores a reference to the shared Player object;
-- here the players live in the Game's player list and the spot keeps the
-- index of its player (player_idx models the reference)
structure Spot where
  table_position : Nat
  player_idx : Nat
  hands : List PlayerHand
deriving DecidableEq

-- in-place mutation of the shared Player object at an index of the store;
-- an out-of-range index never occurs for spots built by Game construction
def upd_player : List Player → Nat → (Player → Player) → List Player
  | [], _, _ => []
  | p :: ps, 0, f => f p :: ps
  | p :: ps, n + 1, f => p :: upd_player ps n f

def dummy_player : Player :=
  { name := "", money := 0, strategy := .RANDOM, takes_insurance := false }

-- the decision oracle: Player.splits / doubles / hits dispatch on the
-- strategy to a random draw, the basic-strategy tables, or the learner
-- with an epsilon-greedy gate; all three are boolean functions of the hand
-- and the dealer up-card plus hidden random state, so the engine is
-- modelled relative to an arbitrary such oracle
structure Policy where
  splits : PlayerHand → Card → Bool
  doubles : PlayerHand → Card → Bool
  hits : PlayerHand → Card → Bool

-- class Game state: shoe, learner, spots and the player store
structure Game where
  shoe : Shoe
  q : QLearner
  spots : List Spot
  players : List Player

-- exception TooManyPlayersException is the only construction failure
def Game.init (shoe : Shoe) (q : QLearner) (player_spot_data : List (Player × Nat)) :
    Except String Game :=
  let spots_req := (player_spot_data.map (fun d => d.2)).sum
  if MAX_TABLE_SPOTS < spots_req then
    .error "TooManyPlayersException"
  else
    -- spots 0..spots_req-1 and the sequential player-to-spot assignment
    let assignments :=
      (player_spot_data.enum.map (fun d => List.replicate d.2.2 d.1)).foldr (· ++ ·) []
    .ok { shoe := shoe, q := q,
          spots := assignments.enum.map (fun a => Spot.mk a.1 a.2 []),
          players := player_spot_data.map (fun d => d.1) }

-- deal phase of Game.process_round: each spot appends one fresh two-card
-- hand bet at the player's requested amount
def deal_hands : List Spot → List Player → Shoe → Option (List Spot × Shoe)
  | [], _, shoe => some ([], shoe)
  | s :: rest, players, shoe => do
    let (cs, shoe1) ← shoe.deal_cards 2
    let bet := ((players.getD s.player_idx dummy_player)).get_bet_amount
    let (rest1, shoe2) ← deal_hands rest players shoe1
    some ({ s with hands := s.hands ++ [PlayerHand.make cs bet] } :: rest1, shoe2)

-- the per-spot body of the insurance loop: pays the bet on a paint hole
-- card, else takes half the bet, for spots whose player opted in
def insurance_step (hole_card : Card) (ps : List Player) (s : Spot) : List Player :=
  if (ps.getD s.player_idx dummy_player).takes_insurance then
    match s.hands with
    | [] => ps
    | h :: _ =>
      if hole_card.is_paint then
        upd_player ps s.player_idx (Player.win h.bet)
      else
        upd_player ps s.player_idx (Player.lose ((0.5 : ℚ) * h.bet))
  else ps

-- insurance phase of Game.process_round: only runs when the dealer up-card
-- (cards[1]) is an ace
def insurance_phase (hole_card up_card : Card) (spots : List Spot)
    (players : List Player) : List Player :=
  if up_card.is_ace then
    spots.foldl (insurance_step hole_card) players
  else players

-- dealer-blackjack phase of Game.process_round: every spot whose first hand
-- is not itself a blackjack loses its bet; every spot's hands are cleared
def dealer_bj_phase : List Spot → List Player → List Spot × List Player
  | [], ps => ([], ps)
  | s :: rest, ps =>
    let ps1 :=
      match s.hands with
      | [] => ps
      | h :: _ => if h.is_bj then ps else upd_player ps s.player_idx (Player.lose h.bet)
    let r := dealer_bj_phase rest ps1
    ({ s with hands := [] } :: r.1, r.2)

-- player-blackjack phase of Game.process_round: 3:2 payoff and the spot's
-- hands are cleared, so the spot takes no further action this round
def player_bj_phase : List Spot → List Player → List Spot × List Player
  | [], ps => ([], ps)
  | s :: rest, ps =>
    let r :=
      match s.hands with
      | [] => (s, ps)
      | h :: _ =>
        if h.is_bj then
          ({ s with hands := [] }, upd_player ps s.player_idx (Player.win ((1.5 : ℚ) * h.bet)))
        else (s, ps)
    let rec1 := player_bj_phase rest r.2
    (r.1 :: rec1.1, rec1.2)

-- Python list.remove removes the first occurrence of the (by identity,
-- hence in this value model by value) given element
def remove_first : List PlayerHand → PlayerHand → List PlayerHand
  | [], _ => []
  | h :: rest, x => if h = x then rest else h :: remove_first rest x

-- in-place mutation of one hand object in the spot's list: the first slot
-- holding that object's value is replaced by the mutated value
def replace_first : List PlayerHand → PlayerHand → PlayerHand → List PlayerHand
  | [], _, _ => []
  | h :: rest, x, y => if h = x then y :: rest else h :: replace_first rest x y

def PlayerHand.add_pair_decision (h : PlayerHand) (d : Decision) : PlayerHand :=
  { h with pair_decisions := h.pair_decisions ++ [d] }

-- Game.__process_splitting: recursion bounded by fuel (MAX_RESPLIT levels
-- suffice, since the spot's hand count grows by one per split and a split
-- requires fewer than MAX_RESPLIT hands); fuel exhaustion returns the state
-- unchanged exactly like the failing guard
def process_splitting (pol : Policy) (dealer_card : Card) :
    Nat → PlayerHand → List PlayerHand → Shoe → Option (List PlayerHand × Shoe)
  | 0, _, hands, shoe => some (hands, shoe)
  | fuel + 1, hand, hands, shoe =>
    if hand.is_pair && decide (hands.length < MAX_RESPLIT) then
      let will_split := pol.splits hand dealer_card
      let decision := Decision.make hand dealer_card will_split
      if will_split then do
        let (new_cards, shoe1) ← shoe.deal_cards 2
        let (h1, h2) ← hand.split new_cards
        let h1 := h1.add_pair_decision decision
        let h2 := h2.add_pair_decision decision
        let hands1 := remove_first hands hand ++ [h1, h2]
        let (hands2, shoe2) ← process_splitting pol dealer_card fuel h1 hands1 shoe1
        let (hands3, shoe3) ← process_splitting pol dealer_card fuel h2 hands2 shoe2
        some (hands3, shoe3)
      else
        some (replace_first hands hand (hand.add_pair_decision decision), shoe)
    else
      some (hands, shoe)

-- Game.__process_double_downs: busted doubled hands lose immediately, feed
-- the learner, and are removed from further play
def process_double_downs (pol : Policy) (dealer_card : Card) (player_idx : Nat) :
    List PlayerHand → Shoe → List Player → QLearner →
    Option (List PlayerHand × Shoe × List Player × QLearner)
  | [], shoe, ps, q => some ([], shoe, ps, q)
  | hand :: rest, shoe, ps, q => do
    let will_double := pol.doubles hand dealer_card
    let decision := Decision.make hand dealer_card will_double
    let hand1 := { hand with double_decisions := hand.double_decisions ++ [decision] }
    let (hand2, shoe1) ←
      if will_double then do
        let (double_card, s1) ← shoe.deal_cards 1
        some ({ hand1 with bet := 2 * hand1.bet,
                           cards := hand1.cards ++ double_card,
                           is_doubled := true }, s1)
      else some (hand1, shoe)
    if hand2.is_bust then do
      let ps1 := upd_player ps player_idx (Player.lose hand2.bet)
      let q1 := hand2.process_decisions false q
      let (rest1, shoe2, ps2, q2) ← process_double_downs pol dealer_card player_idx rest shoe1 ps1 q1
      some (rest1, shoe2, ps2, q2)
    else do
      let (rest1, shoe2, ps2, q2) ← process_double_downs pol dealer_card player_idx rest shoe1 ps q
      some (hand2 :: rest1, shoe2, ps2, q2)

-- the while-loop inside Game.__process_hit_stand for a single hand; the
-- result hand is none when the hand busted (removed from play); the fuel
-- bounds the loop (every hit raises the aces-low sum by at least one and
-- the loop stops beyond 21, so 22 iterations can never be exceeded)
def hit_loop (pol : Policy) (dealer_card : Card) (player_idx : Nat) :
    Nat → PlayerHand → Shoe → List Player → QLearner →
    Option (Option PlayerHand × Shoe × List Player × QLearner)
  | 0, _, _, _, _ => none
  | fuel + 1, hand, shoe, ps, q =>
    if hand.is_bust then
      some (some hand, shoe, ps, q)
    else
      let will_hit := pol.hits hand dealer_card
      let decision := Decision.make hand dealer_card will_hit
      let hand1 := { hand with hit_stand_decisions := hand.hit_stand_decisions ++ [decision] }
      if will_hit then do
        let (hit_card, shoe1) ← shoe.deal_cards 1
        let hand2 := { hand1 with cards := hand1.cards ++ hit_card }
        if hand2.is_bust then
          some (none, shoe1,
            upd_player ps player_idx (Player.lose hand2.bet),
            hand2.process_decisions false q)
        else
          hit_loop pol dealer_card player_idx fuel hand2 shoe1 ps q
      else
        some (some hand1, shoe, ps, q)

def HIT_FUEL : Nat := 32

-- Game.__process_hit_stand: doubled hands are skipped; busted hands are
-- dropped at the end (equivalently, as they bust)
def process_hit_stand (pol : Policy) (dealer_card : Card) (player_idx : Nat) :
    List PlayerHand → Shoe → List Player → QLearner →
    Option (List PlayerHand × Shoe × List Player × QLearner)
  | [], shoe, ps, q => some ([], shoe, ps, q)
  | hand :: rest, shoe, ps, q =>
    if hand.is_doubled then do
      let (rest1, shoe1, ps1, q1) ← process_hit_stand pol dealer_card player_idx rest shoe ps q
      some (hand :: rest1, shoe1, ps1, q1)
    else do
      let (hres, shoe1, ps1, q1) ← hit_loop pol dealer_card player_idx HIT_FUEL hand shoe ps q
      let (rest1, shoe2, ps2, q2) ← process_hit_stand pol dealer_card player_idx rest shoe1 ps1 q1
      match hres with
      | some h => some (h :: rest1, shoe2, ps2, q2)
      | none => some (rest1, shoe2, ps2, q2)

-- Game.__process_spot driven over all spots (the per-spot loop of
-- Game.process_round): splitting starts from spot.hands[0] and only runs
-- for spots still holding a hand
def process_spots (pol : Policy) (dealer_card : Card) :
    List Spot → Shoe → List Player → QLearner →
    Option (List Spot × Shoe × List Player × QLearner)
  | [], shoe, ps, q => some ([], shoe, ps, q)
  | s :: rest, shoe, ps, q =>
    match s.hands with
    | [] => do
      let (rest1, shoe1, ps1, q1) ← process_spots pol dealer_card rest shoe ps q
      some (s :: rest1, shoe1, ps1, q1)
    | h0 :: _ => do
      let (hands1, shoe1) ← process_splitting pol dealer_card MAX_RESPLIT h0 s.hands shoe
      let (hands2, shoe2, ps2, q2) ←
        process_double_downs pol dealer_card s.player_idx hands1 shoe1 ps q
      let (hands3, shoe3, ps3, q3) ←
        process_hit_stand pol dealer_card s.player_idx hands2 shoe2 ps2 q2
      let (rest1, shoe4, ps4, q4) ← process_spots pol dealer_card rest shoe3 ps3 q3
      some ({ s with hands := hands3 } :: rest1, shoe4, ps4, q4)

def DEALER_FUEL : Nat := 32

-- the dealer-draw loop of Game.process_round
def dealer_draw : Nat → Hand → Shoe → Option (Hand × Shoe)
  | 0, dealer_hand, shoe => if dealer_hand.dealer_hits then none else some (dealer_hand, shoe)
  | fuel + 1, dealer_hand, shoe =>
    if dealer_hand.dealer_hits then do
      let (hit_card, shoe1) ← shoe.deal_cards 1
      dealer_draw fuel (Hand.mk (dealer_hand.cards ++ hit_card)) shoe1
    else
      some (dealer_hand, shoe)

-- the per-hand body of the dealer-bust settlement branch
def settle_hand_win (player_idx : Nat) (h : PlayerHand)
    (acc : List Player × QLearner) : List Player × QLearner :=
  (upd_player acc.1 player_idx (Player.win h.bet), h.process_decisions true acc.2)

-- the per-hand body of the total-comparison settlement branch
def settle_hand_compare (dealer_hand : Hand) (player_idx : Nat) (h : PlayerHand)
    (acc : List Player × QLearner) : List Player × QLearner :=
  if dealer_hand.get_sum < h.get_sum then
    (upd_player acc.1 player_idx (Player.win h.bet), h.process_decisions true acc.2)
  else if h.get_sum < dealer_hand.get_sum then
    (upd_player acc.1 player_idx (Player.lose h.bet), h.process_decisions false acc.2)
  else
    acc

-- settlement phase of Game.process_round: payoff stayed hands or take bets
def settlement_phase (dealer_hand : Hand) (spots : List Spot)
    (ps : List Player) (q : QLearner) : List Player × QLearner :=
  if dealer_hand.is_bust then
    spots.foldl (fun acc s => s.hands.foldl (fun a h => settle_hand_win s.player_idx h a) acc)
      (ps, q)
  else
    spots.foldl
      (fun acc s => s.hands.foldl (fun a h => settle_hand_compare dealer_hand s.player_idx h a) acc)
      (ps, q)

-- final clearing of every spot's hand list
def clear_phase (spots : List Spot) : List Spot :=
  spots.map (fun s => { s with hands := [] })

-- Game.process_round
def Game.process_round (pol : Policy) (g : Game) : Option Game := do
  -- create dealer hand
  let (dc, shoe1) ← g.shoe.deal_cards 2
  match dc with
  | [hole_card, up_card] =>
    let dealer_hand := Hand.mk [hole_card, up_card]
    -- create player hands
    let (spots1, shoe2) ← deal_hands g.spots g.players shoe1
    -- handle insurance bets
    let players1 := insurance_phase hole_card up_card spots1 g.players
    -- handle dealer blackjack case (early return)
    if dealer_hand.is_bj then
      let r := dealer_bj_phase spots1 players1
      some { shoe := shoe2, q := g.q, spots := r.1, players := r.2 }
    else do
      -- handle player blackjacks
      let r := player_bj_phase spots1 players1
      -- handle player hands by spot position
      let (spots3, shoe3, ps3, q3) ← process_spots pol up_card r.1 shoe2 r.2 g.q
      -- handle dealer hand
      let (dealer_final, shoe4) ← dealer_draw DEALER_FUEL dealer_hand shoe3
      -- payoff stayed hands or take bets
      let r2 := settlement_phase dealer_final spots3 ps3 q3
      -- clear
      some { shoe := shoe4, q := r2.2, spots := clear_phase spots3, players := r2.1 }
  | _ => none

-- the round loop of Game.play_entire_shoe, bounded by fuel (each round
-- consumes cards, so a shoe only supports finitely many rounds; none is
-- returned if the fuel runs out before the cut card comes out)
def play_rounds (pol : Policy) : Nat → Game → Option Game
  | 0, g => if g.shoe.cut_card_out then some g else none
  | fuel + 1, g =>
    if g.shoe.cut_card_out then some g
    else do
      let g1 ← g.process_round pol
      play_rounds pol fuel g1

-- Game.play_entire_shoe: all rounds, then the three table updates
def Game.play_entire_shoe (pol : Policy) (fuel : Nat) (g : Game) : Option Game :=
  (play_rounds pol fuel g).map
    (fun g1 =>
      { g1 with q :=
          g1.q.update_split_decision_values.update_double_decision_values.update_hit_stand_decision_values })

/- ------------------------------------------------------------------ -/
/- Spec-side comparison definitions (modelled from the wording of the
   specification, to be compared against the source translations above) -/
/- ------------------------------------------------------------------ -/

-- Modelled from the spec: rank maps to a blackjack value, Ace = 1,
-- Ten/Jack/Queen/King = 10, others face value
def spec_card_value (c : Card) : Nat :=
  if c.is_ace then 1 else if c.is_paint then 10 else c.value.value

-- Modelled from the spec: the all-aces-low sum of a hand
def spec_aces_low (cards : List Card) : Nat :=
  (cards.map spec_card_value).sum

-- Modelled from the spec: the all-aces-low sum, plus 10 exactly when that
-- sum is at most 11 and an ace is present
def spec_total (cards : List Card) : Nat :=
  if spec_aces_low cards ≤ 11 ∧ cards.any (fun c => c.is_ace) then
    spec_aces_low cards + 10
  else
    spec_aces_low cards

/- ------------------------------------------------------------------ -/
/- Concrete witness data -/
/- ------------------------------------------------------------------ -/

-- the full six-deck card sequence (the identity permutation of six decks,
-- a possible result of random.shuffle), used as a concrete witness shoe
def six_decks_cards : List Card :=
  (List.replicate 6 deck_cards).foldr (· ++ ·) []

def shoe_deal_witness_shoe : Shoe :=
  { cards := six_decks_cards, cut_card_pos := 2 * CARDS_PER_DECK, cut_card_out := false }

def bust_witness_hand : Hand :=
  ⟨[⟨.KING, .CLUBS⟩, ⟨.QUEEN, .DIAMONDS⟩, ⟨.ACE, .SPADES⟩]⟩

-- concrete players as in the source simulation driver
def john : Player :=
  { name := "John", money := DEFAULT_STAKE, strategy := .Q_LEARN, takes_insurance := true }

def katy : Player :=
  { name := "Katy", money := DEFAULT_STAKE, strategy := .Q_LEARN, takes_insurance := false }

def q_witness : QLearner :=
  QLearner.make (fun _ => false) (fun _ => false) (fun _ => false) (fun _ => false)

def shoe_witness : Shoe :=
  { cards := [], cut_card_pos := 2 * CARDS_PER_DECK, cut_card_out := false }

def dummy_game : Game :=
  { shoe := shoe_witness, q := q_witness, spots := [], players := [] }

def capacity_ok_game : Game :=
  match Game.init shoe_witness q_witness [(john, 4), (katy, 3)] with
  | .ok g => g
  | .error _ => dummy_game

def settlement_witness_dealer : Hand :=
  ⟨[⟨.KING, .CLUBS⟩, ⟨.QUEEN, .CLUBS⟩]⟩

def settlement_witness_hand : PlayerHand :=
  PlayerHand.make [⟨.TEN, .DIAMONDS⟩, ⟨.NINE, .DIAMONDS⟩] 100

def settlement_witness_bj_hand : PlayerHand :=
  PlayerHand.make [⟨.ACE, .DIAMONDS⟩, ⟨.KING, .DIAMONDS⟩] 100

-- Modelled from the claim: the total amount the dealer-blackjack phase
-- takes from player i across the spots (each spot whose first hand is not
-- itself a blackjack loses that hand's bet; blackjack spots lose nothing)
def dealer_bj_losses : List Spot → Nat → ℚ
  | [], _ => 0
  | s :: rest, i =>
    dealer_bj_losses rest i +
      (if s.player_idx = i then
        match s.hands with
        | [] => 0
        | h :: _ => if h.is_bj then 0 else h.bet
      else 0)

def pol_witness : Policy :=
  { splits := fun _ _ => false, doubles := fun _ _ => false, hits := fun _ _ => false }

def c6_shoe : Shoe :=
  { cards := [⟨.ACE, .SPADES⟩, ⟨.KING, .SPADES⟩, ⟨.FIVE, .CLUBS⟩, ⟨.SEVEN, .DIAMONDS⟩,
              ⟨.TWO, .CLUBS⟩, ⟨.THREE, .CLUBS⟩],
    cut_card_pos := 0, cut_card_out := false }

def c6_game : Game :=
  { shoe := c6_shoe, q := q_witness, spots := [⟨0, 0, []⟩], players := [john] }

def c6_shoe1 : Shoe :=
  { cards := [⟨.FIVE, .CLUBS⟩, ⟨.SEVEN, .DIAMONDS⟩, ⟨.TWO, .CLUBS⟩, ⟨.THREE, .CLUBS⟩],
    cut_card_pos := 0, cut_card_out := false }

def c6_shoe2 : Shoe :=
  { cards := [⟨.TWO, .CLUBS⟩, ⟨.THREE, .CLUBS⟩], cut_card_pos := 0, cut_card_out := false }

def c6_spots1 : List Spot :=
  [⟨0, 0, [PlayerHand.make [⟨.FIVE, .CLUBS⟩, ⟨.SEVEN, .DIAMONDS⟩] 100]⟩]

-- occurrence count of a hand value in a hand list (proof helper for the
-- resplit-ceiling invariant)
def hand_count : List PlayerHand → PlayerHand → Nat
  | [], _ => 0
  | h :: rest, x => (if x = h then 1 else 0) + hand_count rest x

def c7_nonpair_hand : PlayerHand :=
  PlayerHand.make [⟨.KING, .CLUBS⟩, ⟨.QUEEN, .CLUBS⟩] 100

def c7_pair_hand : PlayerHand :=
  PlayerHand.make [⟨.NINE, .CLUBS⟩, ⟨.NINE, .DIAMONDS⟩] 100

def push_witness_hand : PlayerHand :=
  PlayerHand.make [⟨.KING, .DIAMONDS⟩, ⟨.QUEEN, .DIAMONDS⟩] 100

-- the learner's persistent tables (totals and derived best-action values),
-- bundled so frame properties can be stated as a single equality; the
-- pending decision lists are deliberately not part of this bundle
def learner_tables (q : QLearner) :
    (String → DecisionTotals) × (String → DecisionTotals) × (String → DecisionTotals) ×
    (String → Bool) × (String → Bool) × (String → Bool) :=
  (q.split_decision_totals, q.double_decision_totals, q.hit_stand_decision_totals,
   q.split_decision_values, q.double_decision_values, q.hit_stand_decision_values)

-- a concrete one-spot round: dealer draws 9-9 (total 18), the player K-Q
-- (total 20), the oracle answers no to every question, so the player
-- stands, wins, and one hit-stand decision reaches the learner's pending
-- list while plenty of cards remain in the shoe
def c8_cards : List Card :=
  [⟨.NINE, .CLUBS⟩, ⟨.NINE, .DIAMONDS⟩, ⟨.KING, .CLUBS⟩, ⟨.QUEEN, .CLUBS⟩,
   ⟨.FIVE, .CLUBS⟩, ⟨.SEVEN, .DIAMONDS⟩, ⟨.FIVE, .DIAMONDS⟩, ⟨.SEVEN, .CLUBS⟩,
   ⟨.FIVE, .HEARTS⟩, ⟨.SEVEN, .HEARTS⟩, ⟨.FIVE, .SPADES⟩, ⟨.SEVEN, .SPADES⟩,
   ⟨.TWO, .CLUBS⟩, ⟨.TWO, .DIAMONDS⟩, ⟨.TWO, .HEARTS⟩, ⟨.TWO, .SPADES⟩,
   ⟨.THREE, .CLUBS⟩, ⟨.THREE, .DIAMONDS⟩, ⟨.THREE, .HEARTS⟩, ⟨.THREE, .SPADES⟩]

def c8_game : Game :=
  { shoe := { cards := c8_cards, cut_card_pos := 0, cut_card_out := false },
    q := q_witness, spots := [⟨0, 0, []⟩], players := [john] }

def c8_after : Game :=
  (c8_game.process_round pol_witness).getD dummy_game

-- the same round but with the cut card so deep that the first deal
-- trips it, so the shoe ends after one round
def c8b_game : Game :=
  { shoe := { cards := c8_cards, cut_card_pos := 100, cut_card_out := false },
    q := q_witness, spots := [⟨0, 0, []⟩], players := [john] }

def c8b_result : Game :=
  (c8b_game.play_entire_shoe pol_witness 2).getD dummy_game

/- ------------------------------------------------------------------ -/
/- Helper lemmas -/
/- ------------------------------------------------------------------ -/

lemma card_low_value_eq (c : Card) :
    (if c.value.value ∈ TEN_CARDS then 10 else c.value.value) = spec_card_value c := by
  rcases c with ⟨v, s⟩
  cases v <;> rfl

lemma aces_low_sum_eq_spec (h : Hand) : h.aces_low_sum = spec_aces_low h.cards := by
  have hf : (fun c : Card => if c.value.value ∈ TEN_CARDS then 10 else c.value.value) =
      spec_card_value := funext fun c => card_low_value_eq c
  simp only [Hand.aces_low_sum, spec_aces_low, hf]

lemma ace_mem_iff_any (cards : List Card) :
    CardValue.ACE ∈ cards.map (fun c => c.value) ↔ cards.any (fun c => c.is_ace) = true := by
  rw [List.any_eq_true]
  constructor
  · intro hmem
    obtain ⟨c, hc, hv⟩ := List.mem_map.mp hmem
    exact ⟨c, hc, by simp [Card.is_ace, hv]⟩
  · rintro ⟨c, hc, hv⟩
    refine List.mem_map.mpr ⟨c, hc, ?_⟩
    simpa [Card.is_ace] using hv

lemma deque_popleft_eq (n : Nat) (cs : List Card) (hn : n ≤ cs.length) :
    deque_popleft n cs = some (cs.take n, cs.drop n) := by
  induction n generalizing cs with
  | zero => rfl
  | succ m ih =>
    cases cs with
    | nil => simp at hn
    | cons c rest =>
      have hm : m ≤ rest.length := by simpa using hn
      show (deque_popleft m rest).map _ = _
      rw [ih rest hm]
      rfl

/- ------------------------------------------------------------------ -/
/- Claim theorems -/
/- ------------------------------------------------------------------ -/

/-- Claim C2: dealing n cards (n within the remaining count) removes and
returns the first n cards and sets the depleted flag cut_card_out exactly
when the pre-removal count minus n is at most the cut-card depth (so it is
set on the first deal whose post-deal remaining count is at most the depth
and never earlier, while the triggering deal still returns its cards); and
a freshly built 6-deck shoe holds 311 cards after the construction-time
burn with cut_card_out still false. -/
theorem shoe_deal_depletion :
    (∀ (s : Shoe) (n : Nat), n ≤ s.cards.length →
      s.deal_cards n = some (s.cards.take n,
        { cards := s.cards.drop n, cut_card_pos := s.cut_card_pos,
          cut_card_out := s.cut_card_out || decide (s.cards.length - n ≤ s.cut_card_pos) }) ∧
      (s.cut_card_out = false →
        ∀ (cs : List Card) (s1 : Shoe), s.deal_cards n = some (cs, s1) →
          (s1.cut_card_out = true ↔ s.cards.length - n ≤ s.cut_card_pos))) ∧
    (∀ shuffled : List Card, shuffled.length = 6 * CARDS_PER_DECK →
      ∀ s : Shoe, Shoe.build 6 shuffled (2 * CARDS_PER_DECK) = some s →
        s.cards.length = 311 ∧ s.cut_card_out = false) := by
  constructor
  · intro s n hn
    have hdeal : s.deal_cards n = some (s.cards.take n,
        { cards := s.cards.drop n, cut_card_pos := s.cut_card_pos,
          cut_card_out := s.cut_card_out || decide (s.cards.length - n ≤ s.cut_card_pos) }) := by
      unfold Shoe.deal_cards
      rw [deque_popleft_eq n s.cards hn]
      rfl
    refine ⟨hdeal, ?_⟩
    intro hout cs s1 hres
    rw [hdeal] at hres
    simp only [Option.some.injEq, Prod.mk.injEq] at hres
    obtain ⟨-, hs1⟩ := hres
    rw [← hs1]
    simp [hout]
  · intro shuffled hlen s hs
    have h1 : (1 : Nat) ≤ shuffled.length := by rw [hlen]; norm_num [CARDS_PER_DECK]
    unfold Shoe.build Shoe.deal_cards at hs
    rw [deque_popleft_eq 1 shuffled h1] at hs
    simp only [Option.map_some', Option.some.injEq] at hs
    rw [← hs]
    constructor
    · simp [hlen, CARDS_PER_DECK]
    · simp only [Bool.false_or]
      rw [hlen]
      norm_num [CARDS_PER_DECK]

set_option maxRecDepth 8000 in
theorem shoe_deal_depletion_witness :
    (shoe_deal_witness_shoe.deal_cards 2 = some (shoe_deal_witness_shoe.cards.take 2,
      { cards := shoe_deal_witness_shoe.cards.drop 2,
        cut_card_pos := shoe_deal_witness_shoe.cut_card_pos,
        cut_card_out := shoe_deal_witness_shoe.cut_card_out ||
          decide (shoe_deal_witness_shoe.cards.length - 2 ≤ shoe_deal_witness_shoe.cut_card_pos) }) ∧
      (shoe_deal_witness_shoe.cut_card_out = false →
        ∀ (cs : List Card) (s1 : Shoe), shoe_deal_witness_shoe.deal_cards 2 = some (cs, s1) →
          (s1.cut_card_out = true ↔
            shoe_deal_witness_shoe.cards.length - 2 ≤ shoe_deal_witness_shoe.cut_card_pos))) ∧
    (∀ s : Shoe, Shoe.build 6 six_decks_cards (2 * CARDS_PER_DECK) = some s →
      s.cards.length = 311 ∧ s.cut_card_out = false) :=
  ⟨shoe_deal_depletion.1 shoe_deal_witness_shoe 2 (by decide),
   shoe_deal_depletion.2 six_decks_cards (by decide)⟩

/-- Claim C3 counterexample: is_bj examines only the first two cards, so a
three-card hand Ace, King, Five reports true, refuting the claim that is_bj
returns false for every hand with more than two cards. -/
theorem is_bj_overlong_hand_cex :
    ¬ (∀ h : Hand, 2 < h.cards.length → h.is_bj = false) := by
  intro hall
  have h3 := hall ⟨[⟨.ACE, .CLUBS⟩, ⟨.KING, .DIAMONDS⟩, ⟨.FIVE, .CLUBS⟩]⟩ (by decide)
  exact absurd h3 (by decide)

/-- Claim C3 (amended): for every two-card hand, is_bj returns true if and
only if one card is an Ace and the other is ten-valued, in either order;
but is_bj inspects only the first two cards, so its result on any longer
hand equals its result on that hand's first two cards (and can be true). -/
theorem is_bj_first_two_cards_characterization :
    (∀ h : Hand, h.cards.length = 2 →
      (h.is_bj = true ↔ ∃ a t : Card, (h.cards = [a, t] ∨ h.cards = [t, a]) ∧
        a.is_ace = true ∧ t.is_paint = true)) ∧
    (∀ (c0 c1 : Card) (rest : List Card),
      Hand.is_bj ⟨c0 :: c1 :: rest⟩ = Hand.is_bj ⟨[c0, c1]⟩) := by
  constructor
  · intro h hlen
    obtain ⟨a, b, hab⟩ := List.length_eq_two.mp hlen
    rcases h with ⟨cards⟩
    simp only at hab
    subst hab
    simp only [Hand.is_bj, Bool.or_eq_true, Bool.and_eq_true]
    constructor
    · rintro (⟨ha, hb⟩ | ⟨ha, hb⟩)
      · exact ⟨a, b, Or.inl rfl, ha, hb⟩
      · exact ⟨b, a, Or.inr rfl, hb, ha⟩
    · rintro ⟨x, t, hxt | hxt, hace, hpaint⟩
      · obtain ⟨rfl, rfl⟩ : x = a ∧ t = b := by
          simpa [eq_comm] using hxt
        exact Or.inl ⟨hace, hpaint⟩
      · obtain ⟨rfl, rfl⟩ : t = a ∧ x = b := by
          simpa [eq_comm] using hxt
        exact Or.inr ⟨hpaint, hace⟩
  · intro c0 c1 rest
    rfl

theorem is_bj_first_two_cards_characterization_witness :
    (Hand.is_bj ⟨[⟨.ACE, .CLUBS⟩, ⟨.KING, .DIAMONDS⟩]⟩ = true ↔
      ∃ a t : Card,
        (([⟨.ACE, .CLUBS⟩, ⟨.KING, .DIAMONDS⟩] : List Card) = [a, t] ∨
         ([⟨.ACE, .CLUBS⟩, ⟨.KING, .DIAMONDS⟩] : List Card) = [t, a]) ∧
        a.is_ace = true ∧ t.is_paint = true) ∧
    Hand.is_bj ⟨[⟨.ACE, .CLUBS⟩, ⟨.KING, .DIAMONDS⟩, ⟨.FIVE, .CLUBS⟩]⟩ =
      Hand.is_bj ⟨[⟨.ACE, .CLUBS⟩, ⟨.KING, .DIAMONDS⟩]⟩ :=
  ⟨is_bj_first_two_cards_characterization.1 ⟨[⟨.ACE, .CLUBS⟩, ⟨.KING, .DIAMONDS⟩]⟩ (by decide),
   is_bj_first_two_cards_characterization.2 ⟨.ACE, .CLUBS⟩ ⟨.KING, .DIAMONDS⟩ [⟨.FIVE, .CLUBS⟩]⟩

/-- Claim C4: get_sum equals the spec total (all-aces-low sum of card
values with Ace as 1 and Ten/Jack/Queen/King as 10, plus 10 exactly when
that sum is at most 11 and an ace is present), and at most one ace is ever
promoted (the result is the low sum or the low sum plus exactly 10), the
promotion happening only when the resulting total stays at most 21 and at
least one ace is present. -/
theorem get_sum_follows_spec :
    ∀ h : Hand,
      h.get_sum = spec_total h.cards ∧
      (h.get_sum = h.aces_low_sum ∨
        (h.get_sum = h.aces_low_sum + 10 ∧ h.get_sum ≤ 21 ∧
          h.cards.any (fun c => c.is_ace) = true)) := by
  intro h
  have hlow := aces_low_sum_eq_spec h
  have hace := ace_mem_iff_any h.cards
  have hcond : (h.aces_low_sum ≤ 11 ∧ CardValue.ACE ∈ h.cards.map (fun c => c.value)) ↔
      (spec_aces_low h.cards ≤ 11 ∧ h.cards.any (fun c => c.is_ace) = true) := by
    rw [hlow] at *
    exact and_congr Iff.rfl hace
  constructor
  · by_cases hc : h.aces_low_sum ≤ 11 ∧ CardValue.ACE ∈ h.cards.map (fun c => c.value)
    · rw [Hand.get_sum, spec_total, if_pos hc, if_pos (by simpa using hcond.mp hc), hlow]
    · rw [Hand.get_sum, spec_total, if_neg hc, if_neg (by simpa using (hcond.not).mp hc), hlow]
  · by_cases hc : h.aces_low_sum ≤ 11 ∧ CardValue.ACE ∈ h.cards.map (fun c => c.value)
    · refine Or.inr ⟨by rw [Hand.get_sum, if_pos hc], ?_, hace.mp hc.2⟩
      rw [Hand.get_sum, if_pos hc]
      have h1 := hc.1
      omega
    · exact Or.inl (by rw [Hand.get_sum, if_neg hc])

/-- Claim C5: over every non-empty hand, is_bust is false exactly when
get_sum is at most 21 and true exactly when get_sum exceeds 21; the two
conditions are exhaustive and mutually exclusive. -/
theorem is_bust_total_complement :
    ∀ h : Hand, h.cards ≠ [] →
      (h.is_bust = false ↔ h.get_sum ≤ 21) ∧ (h.is_bust = true ↔ 21 < h.get_sum) := by
  intro h _
  simp only [Hand.is_bust, Hand.get_sum]
  by_cases hc : h.aces_low_sum ≤ 11 ∧ CardValue.ACE ∈ h.cards.map (fun c => c.value)
  · have h1 := hc.1
    rw [if_pos hc]
    simp only [decide_eq_true_eq, decide_eq_false_iff_not, not_lt]
    omega
  · rw [if_neg hc]
    simp [decide_eq_true_eq, decide_eq_false_iff_not, not_lt]

theorem is_bust_total_complement_witness :
    (bust_witness_hand.is_bust = false ↔ bust_witness_hand.get_sum ≤ 21) ∧
    (bust_witness_hand.is_bust = true ↔ 21 < bust_witness_hand.get_sum) :=
  is_bust_total_complement bust_witness_hand (by decide)

/- ------------------------------------------------------------------ -/
/- Player-store helper lemmas -/
/- ------------------------------------------------------------------ -/

lemma upd_player_length (ps : List Player) (i : Nat) (f : Player → Player) :
    (upd_player ps i f).length = ps.length := by
  induction ps generalizing i with
  | nil => rfl
  | cons p rest ih =>
    cases i with
    | zero => rfl
    | succ j => simp [upd_player, ih]

lemma upd_player_getD (ps : List Player) (i : Nat) (f : Player → Player)
    (hi : i < ps.length) :
    (upd_player ps i f).getD i dummy_player = f (ps.getD i dummy_player) := by
  induction ps generalizing i with
  | nil => simp at hi
  | cons p rest ih =>
    cases i with
    | zero => rfl
    | succ j =>
      have hj : j < rest.length := by simpa using hi
      simpa [upd_player] using ih j hj

lemma upd_player_getD_ne (ps : List Player) (i j : Nat) (f : Player → Player)
    (hij : j ≠ i) :
    (upd_player ps i f).getD j dummy_player = ps.getD j dummy_player := by
  induction ps generalizing i j with
  | nil => rfl
  | cons p rest ih =>
    cases i with
    | zero =>
      cases j with
      | zero => exact absurd rfl hij
      | succ k => rfl
    | succ m =>
      cases j with
      | zero => rfl
      | succ k => simpa [upd_player] using ih m k (by omega)

/-- Claim C9: constructing a Game whose players together request more than
the fixed capacity of MAX_TABLE_SPOTS = 7 spots fails immediately with
TooManyPlayersException, before any card is dealt and with every player
balance untouched; with at most 7 requested spots construction succeeds,
deals no card (the shoe is stored unchanged), stores the players verbatim
(balances unchanged) and creates exactly the requested spots, all empty. -/
theorem game_capacity_fail_fast :
    ∀ (shoe : Shoe) (q : QLearner) (player_spot_data : List (Player × Nat)),
      (MAX_TABLE_SPOTS < (player_spot_data.map (fun d => d.2)).sum →
        Game.init shoe q player_spot_data = .error "TooManyPlayersException") ∧
      ((player_spot_data.map (fun d => d.2)).sum ≤ MAX_TABLE_SPOTS →
        ∀ g : Game, Game.init shoe q player_spot_data = .ok g →
          g.shoe = shoe ∧
          g.players = player_spot_data.map (fun d => d.1) ∧
          g.spots.length = (player_spot_data.map (fun d => d.2)).sum ∧
          (∀ s ∈ g.spots, s.hands = [])) := by
  intro shoe q data
  constructor
  · intro hgt
    unfold Game.init
    rw [if_pos hgt]
  · intro hle g hg
    unfold Game.init at hg
    rw [if_neg (by omega)] at hg
    simp only [Except.ok.injEq] at hg
    rw [← hg]
    refine ⟨rfl, rfl, ?_, ?_⟩
    · simp only [List.length_map, List.enum_length]
      have hfold : ∀ l : List (List Nat),
          (l.foldr (· ++ ·) []).length = (l.map List.length).sum := by
        intro l
        induction l with
        | nil => rfl
        | cons x rest ih => simp [ih]
      rw [hfold]
      have : (data.enum.map (fun d : Nat × (Player × Nat) => List.replicate d.2.2 d.1)).map
          List.length = data.enum.map (fun d => d.2.2) := by
        simp [List.map_map, Function.comp]
      rw [this]
      have h2 : data.enum.map (fun d : Nat × (Player × Nat) => d.2.2) =
          data.map (fun d => d.2) := by
        rw [show (fun d : Nat × (Player × Nat) => d.2.2) =
            ((fun d : Player × Nat => d.2) ∘ Prod.snd) from rfl]
        rw [← List.map_map, List.enum_map_snd]
      rw [h2]
    · intro s hs
      simp only [List.mem_map] at hs
      obtain ⟨a, -, rfl⟩ := hs
      rfl

theorem game_capacity_fail_fast_witness :
    Game.init shoe_witness q_witness [(john, 8)] = .error "TooManyPlayersException" ∧
    (capacity_ok_game.shoe = shoe_witness ∧
      capacity_ok_game.players = ([(john, 4), (katy, 3)].map (fun d => d.1)) ∧
      capacity_ok_game.spots.length = (([(john, 4), (katy, 3)] :
        List (Player × Nat)).map (fun d => d.2)).sum ∧
      (∀ s ∈ capacity_ok_game.spots, s.hands = [])) :=
  ⟨(game_capacity_fail_fast shoe_witness q_witness [(john, 8)]).1 (by decide),
   (game_capacity_fail_fast shoe_witness q_witness [(john, 4), (katy, 3)]).2
     (by decide) capacity_ok_game rfl⟩

/-- Claim C1: per surviving hand at settlement, the player balance rises by
the bet when the dealer busts, else rises by the bet when the hand total
beats the dealer total, falls by the bet when below, and is unchanged on a
push; and a blackjack first hand is paid exactly 1.5 times its bet in the
player-blackjack phase (run before per-spot play), its spot being cleared. -/
theorem settlement_pays_per_hand :
    ∀ (dealer_hand : Hand) (pos i : Nat) (h : PlayerHand) (ps : List Player) (q : QLearner),
      i < ps.length →
      (((settlement_phase dealer_hand [⟨pos, i, [h]⟩] ps q).1.getD i dummy_player).money =
        (if dealer_hand.is_bust then (ps.getD i dummy_player).money + h.bet
         else if dealer_hand.get_sum < h.get_sum then (ps.getD i dummy_player).money + h.bet
         else if h.get_sum < dealer_hand.get_sum then (ps.getD i dummy_player).money - h.bet
         else (ps.getD i dummy_player).money)) ∧
      (h.is_bj = true →
        ((player_bj_phase [⟨pos, i, [h]⟩] ps).2.getD i dummy_player).money =
          (ps.getD i dummy_player).money + (1.5 : ℚ) * h.bet ∧
        (player_bj_phase [⟨pos, i, [h]⟩] ps).1 = [⟨pos, i, []⟩]) := by
  intro dealer_hand pos i h ps q hi
  constructor
  · by_cases hb : dealer_hand.is_bust
    · simp only [settlement_phase, if_pos hb, List.foldl_cons, List.foldl_nil,
        settle_hand_win]
      rw [upd_player_getD ps i _ hi]
      rfl
    · simp only [settlement_phase, if_neg hb, List.foldl_cons, List.foldl_nil,
        settle_hand_compare]
      by_cases h1 : dealer_hand.get_sum < h.get_sum
      · rw [if_pos h1, if_pos h1]
        rw [upd_player_getD ps i _ hi]
        rfl
      · rw [if_neg h1, if_neg h1]
        by_cases h2 : h.get_sum < dealer_hand.get_sum
        · rw [if_pos h2, if_pos h2]
          rw [upd_player_getD ps i _ hi]
          rfl
        · rw [if_neg h2, if_neg h2]
  · intro hbj
    have hsimp : player_bj_phase [⟨pos, i, [h]⟩] ps =
        ([⟨pos, i, []⟩], upd_player ps i (Player.win ((1.5 : ℚ) * h.bet))) := by
      simp [player_bj_phase, hbj]
    rw [hsimp]
    refine ⟨?_, rfl⟩
    rw [upd_player_getD ps i _ hi]
    rfl

theorem settlement_pays_per_hand_witness :
    (((settlement_phase settlement_witness_dealer [⟨0, 0, [settlement_witness_hand]⟩]
        [john] q_witness).1.getD 0 dummy_player).money =
      (if settlement_witness_dealer.is_bust then
        (([john] : List Player).getD 0 dummy_player).money + settlement_witness_hand.bet
       else if settlement_witness_dealer.get_sum < settlement_witness_hand.get_sum then
        (([john] : List Player).getD 0 dummy_player).money + settlement_witness_hand.bet
       else if settlement_witness_hand.get_sum < settlement_witness_dealer.get_sum then
        (([john] : List Player).getD 0 dummy_player).money - settlement_witness_hand.bet
       else (([john] : List Player).getD 0 dummy_player).money)) ∧
    (((player_bj_phase [⟨0, 0, [settlement_witness_bj_hand]⟩] [john]).2.getD 0
        dummy_player).money =
      (([john] : List Player).getD 0 dummy_player).money +
        (1.5 : ℚ) * settlement_witness_bj_hand.bet ∧
      (player_bj_phase [⟨0, 0, [settlement_witness_bj_hand]⟩] [john]).1 = [⟨0, 0, []⟩]) :=
  ⟨(settlement_pays_per_hand settlement_witness_dealer 0 0 settlement_witness_hand
      [john] q_witness (by decide)).1,
   (settlement_pays_per_hand settlement_witness_dealer 0 0 settlement_witness_bj_hand
      [john] q_witness (by decide)).2 (by decide)⟩

/-- Claim C10: a pushing hand (dealer not bust, equal totals) is settled by
the comparison branch without calling process_decisions: both the player
store and the learner state pass through completely unchanged, so none of
the hand's recorded decisions is delivered; and the round-end clear phase
empties every spot's hand list, discarding the recorded decisions. -/
theorem push_learner_exempt :
    ∀ (dealer_hand : Hand) (pos i : Nat) (h : PlayerHand) (ps : List Player) (q : QLearner),
      dealer_hand.is_bust = false → h.get_sum = dealer_hand.get_sum →
      settle_hand_compare dealer_hand i h (ps, q) = (ps, q) ∧
      settlement_phase dealer_hand [⟨pos, i, [h]⟩] ps q = (ps, q) ∧
      (∀ spots : List Spot, ∀ s ∈ clear_phase spots, s.hands = []) := by
  intro dealer_hand pos i h ps q hb heq
  have hstep : settle_hand_compare dealer_hand i h (ps, q) = (ps, q) := by
    unfold settle_hand_compare
    rw [if_neg (by omega), if_neg (by omega)]
  refine ⟨hstep, ?_, ?_⟩
  · simp only [settlement_phase, hb, Bool.false_eq_true, if_false, List.foldl_cons,
      List.foldl_nil, hstep]
  · intro spots s hs
    simp only [clear_phase, List.mem_map] at hs
    obtain ⟨a, -, rfl⟩ := hs
    rfl

theorem push_learner_exempt_witness :
    settle_hand_compare settlement_witness_dealer 0 push_witness_hand ([john], q_witness) =
      ([john], q_witness) ∧
    settlement_phase settlement_witness_dealer [⟨0, 0, [push_witness_hand]⟩] [john] q_witness =
      ([john], q_witness) ∧
    (∀ spots : List Spot, ∀ s ∈ clear_phase spots, s.hands = []) :=
  push_learner_exempt settlement_witness_dealer 0 0 push_witness_hand [john] q_witness
    (by decide) (by decide)

/- ------------------------------------------------------------------ -/
/- Dealer-blackjack short-circuit lemmas and theorem -/
/- ------------------------------------------------------------------ -/

lemma insurance_step_length (hole : Card) (ps : List Player) (s : Spot) :
    (insurance_step hole ps s).length = ps.length := by
  unfold insurance_step
  by_cases ht : (ps.getD s.player_idx dummy_player).takes_insurance = true
  · rw [if_pos ht]
    rcases s.hands with _ | ⟨h, hs'⟩
    · rfl
    · dsimp only
      by_cases hp : hole.is_paint = true
      · rw [if_pos hp, upd_player_length]
      · rw [if_neg hp, upd_player_length]
  · rw [if_neg ht]

lemma insurance_foldl_length (hole : Card) (spots : List Spot) :
    ∀ ps : List Player, (spots.foldl (insurance_step hole) ps).length = ps.length := by
  induction spots with
  | nil => intro ps; rfl
  | cons s rest ih =>
    intro ps
    rw [List.foldl_cons, ih, insurance_step_length]

lemma insurance_phase_length (hole up : Card) (spots : List Spot) (ps : List Player) :
    (insurance_phase hole up spots ps).length = ps.length := by
  unfold insurance_phase
  by_cases ha : up.is_ace = true
  · rw [if_pos ha, insurance_foldl_length]
  · rw [if_neg ha]

lemma dealer_bj_spots_eq (spots : List Spot) :
    ∀ ps : List Player,
      (dealer_bj_phase spots ps).1 = spots.map (fun s => { s with hands := [] }) := by
  induction spots with
  | nil => intro ps; rfl
  | cons s rest ih =>
    intro ps
    simp only [dealer_bj_phase, List.map_cons]
    rw [ih]

lemma dealer_bj_money (spots : List Spot) :
    ∀ (ps : List Player) (i : Nat),
      (∀ s ∈ spots, s.player_idx < ps.length) →
      ((dealer_bj_phase spots ps).2.getD i dummy_player).money =
        (ps.getD i dummy_player).money - dealer_bj_losses spots i := by
  induction spots with
  | nil =>
    intro ps i _
    simp [dealer_bj_phase, dealer_bj_losses]
  | cons s rest ih =>
    intro ps i hpi
    have hs0 : s.player_idx < ps.length := hpi s (List.mem_cons_self s rest)
    have htail : ∀ t ∈ rest, t.player_idx < ps.length :=
      fun t ht => hpi t (List.mem_cons_of_mem s ht)
    rcases hsh : s.hands with _ | ⟨h, hs'⟩
    · simp only [dealer_bj_phase, hsh]
      rw [ih ps i htail]
      simp only [dealer_bj_losses, hsh]
      by_cases hidx : s.player_idx = i <;> simp [hidx]
    · by_cases hbjh : h.is_bj = true
      · simp only [dealer_bj_phase, hsh]
        rw [if_pos hbjh, ih ps i htail]
        simp only [dealer_bj_losses, hsh]
        by_cases hidx : s.player_idx = i <;> simp [hidx, hbjh]
      · simp only [dealer_bj_phase, hsh]
        rw [if_neg hbjh]
        have htail1 : ∀ t ∈ rest,
            t.player_idx < (upd_player ps s.player_idx (Player.lose h.bet)).length := by
          intro t ht
          rw [upd_player_length]
          exact htail t ht
        rw [ih _ i htail1]
        simp only [dealer_bj_losses, hsh]
        by_cases hidx : s.player_idx = i
        · subst hidx
          rw [upd_player_getD ps s.player_idx _ hs0]
          simp [Player.lose, hbjh]
          ring
        · rw [upd_player_getD_ne ps s.player_idx i _ (fun hh => hidx hh.symm)]
          simp [hidx]

/-- Claim C6: when the dealer's initial two cards form a blackjack, the
round short-circuits: each spot whose first hand is not itself a blackjack
has its player's balance reduced by exactly that hand's bet (blackjack
spots are untouched by this phase), every spot's hand list is cleared, the
shoe is exactly as it stood after the initial deal (no splitting, doubling,
hitting or dealer drawing consumes cards), and the learner state is
untouched (no settlement runs). -/
theorem dealer_blackjack_short_circuit :
    ∀ (pol : Policy) (g : Game) (hole_card up_card : Card) (shoe1 shoe2 : Shoe)
      (spots1 : List Spot),
      g.shoe.deal_cards 2 = some ([hole_card, up_card], shoe1) →
      deal_hands g.spots g.players shoe1 = some (spots1, shoe2) →
      Hand.is_bj ⟨[hole_card, up_card]⟩ = true →
      (∀ s ∈ spots1, s.player_idx < g.players.length) →
      ∃ g1 : Game, g.process_round pol = some g1 ∧
        g1.q = g.q ∧
        g1.shoe = shoe2 ∧
        (∀ s ∈ g1.spots, s.hands = []) ∧
        (∀ i : Nat,
          (g1.players.getD i dummy_player).money =
            ((insurance_phase hole_card up_card spots1 g.players).getD i dummy_player).money -
              dealer_bj_losses spots1 i) := by
  intro pol g hole_card up_card shoe1 shoe2 spots1 h2 hd hbj hpi
  have hrun : g.process_round pol = some
      { shoe := shoe2, q := g.q,
        spots := (dealer_bj_phase spots1 (insurance_phase hole_card up_card spots1 g.players)).1,
        players := (dealer_bj_phase spots1 (insurance_phase hole_card up_card spots1 g.players)).2 } := by
    unfold Game.process_round
    rw [h2]
    simp only [Option.bind_eq_bind, Option.some_bind]
    rw [hd]
    simp only [Option.some_bind]
    simp [hbj]
  refine ⟨_, hrun, rfl, rfl, ?_, ?_⟩
  · intro s hs
    simp only [dealer_bj_spots_eq, List.mem_map] at hs
    obtain ⟨a, -, rfl⟩ := hs
    rfl
  · intro i
    refine dealer_bj_money spots1 _ i ?_
    intro s hs
    rw [insurance_phase_length]
    exact hpi s hs

theorem dealer_blackjack_short_circuit_witness :
    ∃ g1 : Game, c6_game.process_round pol_witness = some g1 ∧
      g1.q = c6_game.q ∧
      g1.shoe = c6_shoe2 ∧
      (∀ s ∈ g1.spots, s.hands = []) ∧
      (∀ i : Nat,
        (g1.players.getD i dummy_player).money =
          ((insurance_phase ⟨.ACE, .SPADES⟩ ⟨.KING, .SPADES⟩ c6_spots1 c6_game.players).getD i
            dummy_player).money - dealer_bj_losses c6_spots1 i) :=
  dealer_blackjack_short_circuit pol_witness c6_game ⟨.ACE, .SPADES⟩ ⟨.KING, .SPADES⟩
    c6_shoe1 c6_shoe2 c6_spots1 rfl rfl (by decide) (by decide)

/- ------------------------------------------------------------------ -/
/- Resplit ceiling lemmas and theorem -/
/- ------------------------------------------------------------------ -/

lemma hand_count_append (l1 l2 : List PlayerHand) (x : PlayerHand) :
    hand_count (l1 ++ l2) x = hand_count l1 x + hand_count l2 x := by
  induction l1 with
  | nil => simp [hand_count]
  | cons h rest ih =>
    show (if x = h then 1 else 0) + hand_count (rest ++ l2) x =
      ((if x = h then 1 else 0) + hand_count rest x) + hand_count l2 x
    rw [ih]
    omega

lemma hand_count_pos_of_mem (l : List PlayerHand) (x : PlayerHand) (hx : x ∈ l) :
    1 ≤ hand_count l x := by
  induction l with
  | nil => simp at hx
  | cons h rest ih =>
    rcases List.mem_cons.mp hx with rfl | hmem
    · simp [hand_count]
    · have := ih hmem
      simp only [hand_count]
      omega

lemma remove_first_length (l : List PlayerHand) (x : PlayerHand)
    (hx : 1 ≤ hand_count l x) :
    (remove_first l x).length + 1 = l.length := by
  induction l with
  | nil => simp [hand_count] at hx
  | cons h rest ih =>
    by_cases hh : h = x
    · simp [remove_first, hh]
    · have hx' : 1 ≤ hand_count rest x := by
        have hne : ¬(x = h) := fun e => hh e.symm
        simpa [hand_count, hne] using hx
      have := ih hx'
      simp only [remove_first, if_neg hh, List.length_cons]
      omega

lemma remove_first_count (l : List PlayerHand) (x g : PlayerHand) :
    hand_count l g ≤ hand_count (remove_first l x) g + (if g = x then 1 else 0) := by
  induction l with
  | nil => simp [hand_count, remove_first]
  | cons h rest ih =>
    by_cases hh : h = x
    · have hrw : remove_first (h :: rest) x = rest := by
        simp [remove_first, hh]
      rw [hrw]
      simp only [hand_count, hh]
      omega
    · simp only [remove_first, if_neg hh, hand_count]
      omega

lemma replace_first_length (l : List PlayerHand) (x y : PlayerHand) :
    (replace_first l x y).length = l.length := by
  induction l with
  | nil => rfl
  | cons h rest ih =>
    by_cases hh : h = x
    · simp [replace_first, hh]
    · simp [replace_first, hh, ih]

lemma replace_first_count (l : List PlayerHand) (x y g : PlayerHand) :
    hand_count l g ≤ hand_count (replace_first l x y) g + (if g = x then 1 else 0) := by
  induction l with
  | nil => simp [hand_count, replace_first]
  | cons h rest ih =>
    by_cases hh : h = x
    · have hrw : replace_first (h :: rest) x y = y :: rest := by
        simp [replace_first, hh]
      rw [hrw]
      simp only [hand_count, hh]
      omega
    · simp only [replace_first, if_neg hh, hand_count]
      omega

lemma hand_count_pair_left (a b : PlayerHand) :
    hand_count [a, b] a = 1 + (if a = b then 1 else 0) := by
  simp [hand_count]

lemma hand_count_pair_right (a b : PlayerHand) :
    hand_count [a, b] b = (if b = a then 1 else 0) + 1 := by
  simp [hand_count]

lemma process_splitting_guard (pol : Policy) (dc : Card) (fuel : Nat)
    (hand : PlayerHand) (hands : List PlayerHand) (shoe : Shoe)
    (hng : ¬(hand.is_pair = true ∧ hands.length < MAX_RESPLIT)) :
    process_splitting pol dc fuel hand hands shoe = some (hands, shoe) := by
  cases fuel with
  | zero => rfl
  | succ fuel =>
    have hcond : ¬((hand.is_pair && decide (hands.length < MAX_RESPLIT)) = true) := by
      simpa [Bool.and_eq_true, decide_eq_true_eq] using hng
    simp only [process_splitting]
    rw [if_neg hcond]

lemma process_splitting_count (pol : Policy) (dc : Card) :
    ∀ (fuel : Nat) (hand : PlayerHand) (hands : List PlayerHand) (shoe : Shoe)
      (res : List PlayerHand × Shoe),
      process_splitting pol dc fuel hand hands shoe = some res →
      ∀ g : PlayerHand,
        hand_count hands g ≤ hand_count res.1 g + (if g = hand then 1 else 0) := by
  intro fuel
  induction fuel with
  | zero =>
    intro hand hands shoe res hres g
    simp only [process_splitting, Option.some.injEq] at hres
    subst hres
    dsimp only
    omega
  | succ fuel ih =>
    intro hand hands shoe res hres g
    simp only [process_splitting, Option.bind_eq_bind] at hres
    by_cases hguard : (hand.is_pair && decide (hands.length < MAX_RESPLIT)) = true
    · rw [if_pos hguard] at hres
      by_cases hws : pol.splits hand dc = true
      · rw [if_pos hws] at hres
        obtain ⟨⟨new_cards, shoe1⟩, hdeal, hres⟩ := Option.bind_eq_some.mp hres
        dsimp only at hres
        obtain ⟨⟨h1, h2⟩, hsplit, hres⟩ := Option.bind_eq_some.mp hres
        dsimp only at hres
        obtain ⟨⟨hands2, shoe2⟩, hrec1, hres⟩ := Option.bind_eq_some.mp hres
        dsimp only at hres
        obtain ⟨⟨hands3, shoe3⟩, hrec2, hres⟩ := Option.bind_eq_some.mp hres
        dsimp only at hres
        rw [Option.some.injEq] at hres
        subst hres
        dsimp only
        have c1 := ih _ _ _ _ hrec1 g
        have c2 := ih _ _ _ _ hrec2 g
        have crm := remove_first_count hands hand g
        dsimp only at c1 c2
        rw [hand_count_append] at c1
        simp only [hand_count] at c1
        omega
      · rw [if_neg hws] at hres
        simp only [Option.some.injEq] at hres
        subst hres
        dsimp only
        have := replace_first_count hands hand
          (hand.add_pair_decision (Decision.make hand dc (pol.splits hand dc))) g
        omega
    · rw [if_neg hguard] at hres
      simp only [Option.some.injEq] at hres
      subst hres
      dsimp only
      omega

lemma process_splitting_length (pol : Policy) (dc : Card) :
    ∀ (fuel : Nat) (hand : PlayerHand) (hands : List PlayerHand) (shoe : Shoe)
      (res : List PlayerHand × Shoe),
      process_splitting pol dc fuel hand hands shoe = some res →
      1 ≤ hand_count hands hand → hands.length ≤ MAX_RESPLIT →
      res.1.length ≤ MAX_RESPLIT := by
  intro fuel
  induction fuel with
  | zero =>
    intro hand hands shoe res hres hmem hlen
    simp only [process_splitting, Option.some.injEq] at hres
    subst hres
    exact hlen
  | succ fuel ih =>
    intro hand hands shoe res hres hmem hlen
    simp only [process_splitting, Option.bind_eq_bind] at hres
    by_cases hguard : (hand.is_pair && decide (hands.length < MAX_RESPLIT)) = true
    · have hlt : hands.length < MAX_RESPLIT := by
        have := (Bool.and_eq_true _ _).mp hguard
        exact of_decide_eq_true this.2
      rw [if_pos hguard] at hres
      by_cases hws : pol.splits hand dc = true
      · rw [if_pos hws] at hres
        obtain ⟨⟨new_cards, shoe1⟩, hdeal, hres⟩ := Option.bind_eq_some.mp hres
        dsimp only at hres
        obtain ⟨⟨h1, h2⟩, hsplit, hres⟩ := Option.bind_eq_some.mp hres
        dsimp only at hres
        obtain ⟨⟨hands2, shoe2⟩, hrec1, hres⟩ := Option.bind_eq_some.mp hres
        dsimp only at hres
        obtain ⟨⟨hands3, shoe3⟩, hrec2, hres⟩ := Option.bind_eq_some.mp hres
        dsimp only at hres
        rw [Option.some.injEq] at hres
        subst hres
        dsimp only
        have hrm := remove_first_length hands hand hmem
        have hlen1 : (remove_first hands hand ++
            [h1.add_pair_decision (Decision.make hand dc (pol.splits hand dc)),
             h2.add_pair_decision (Decision.make hand dc (pol.splits hand dc))]).length ≤
            MAX_RESPLIT := by
          simp only [List.length_append, List.length_cons, List.length_nil]
          omega
        have hmem1 : 1 ≤ hand_count (remove_first hands hand ++
            [h1.add_pair_decision (Decision.make hand dc (pol.splits hand dc)),
             h2.add_pair_decision (Decision.make hand dc (pol.splits hand dc))])
            (h1.add_pair_decision (Decision.make hand dc (pol.splits hand dc))) := by
          rw [hand_count_append, hand_count_pair_left]
          omega
        have hl2 := ih _ _ _ _ hrec1 hmem1 hlen1
        have hc1 := process_splitting_count pol dc fuel _ _ _ _ hrec1
          (h2.add_pair_decision (Decision.make hand dc (pol.splits hand dc)))
        dsimp only at hc1 hl2
        rw [hand_count_append, hand_count_pair_right] at hc1
        have hmem2 : 1 ≤ hand_count hands2
            (h2.add_pair_decision (Decision.make hand dc (pol.splits hand dc))) := by
          omega
        exact ih _ _ _ _ hrec2 hmem2 hl2
      · rw [if_neg hws] at hres
        simp only [Option.some.injEq] at hres
        subst hres
        dsimp only
        rw [replace_first_length]
        exact hlen
    · rw [if_neg hguard] at hres
      simp only [Option.some.injEq] at hres
      subst hres
      exact hlen

lemma process_double_downs_length (pol : Policy) (dc : Card) (idx : Nat) :
    ∀ (hands : List PlayerHand) (shoe : Shoe) (ps : List Player) (q : QLearner)
      (res : List PlayerHand × Shoe × List Player × QLearner),
      process_double_downs pol dc idx hands shoe ps q = some res →
      res.1.length ≤ hands.length := by
  intro hands
  induction hands with
  | nil =>
    intro shoe ps q res hres
    simp only [process_double_downs, Option.some.injEq] at hres
    subst hres
    exact Nat.le_refl 0
  | cons hand rest ih =>
    intro shoe ps q res hres
    simp only [process_double_downs, Option.bind_eq_bind] at hres
    by_cases hwd : pol.doubles hand dc = true
    · rw [if_pos hwd] at hres
      obtain ⟨⟨dcard, s1⟩, hdeal, hres⟩ := Option.bind_eq_some.mp hres
      simp only [Option.some_bind] at hres
      split at hres
      · obtain ⟨⟨rest1, shoe2, ps2, q2⟩, hrec, hres⟩ := Option.bind_eq_some.mp hres
        dsimp only at hres
        rw [Option.some.injEq] at hres
        subst hres
        dsimp only
        have hlr := ih _ _ _ _ hrec
        dsimp only at hlr
        simp only [List.length_cons]
        omega
      · obtain ⟨⟨rest1, shoe2, ps2, q2⟩, hrec, hres⟩ := Option.bind_eq_some.mp hres
        dsimp only at hres
        rw [Option.some.injEq] at hres
        subst hres
        dsimp only
        have hlr := ih _ _ _ _ hrec
        dsimp only at hlr
        simp only [List.length_cons]
        omega
    · rw [if_neg hwd] at hres
      simp only [Option.some_bind] at hres
      split at hres
      · obtain ⟨⟨rest1, shoe2, ps2, q2⟩, hrec, hres⟩ := Option.bind_eq_some.mp hres
        dsimp only at hres
        rw [Option.some.injEq] at hres
        subst hres
        dsimp only
        have hlr := ih _ _ _ _ hrec
        dsimp only at hlr
        simp only [List.length_cons]
        omega
      · obtain ⟨⟨rest1, shoe2, ps2, q2⟩, hrec, hres⟩ := Option.bind_eq_some.mp hres
        dsimp only at hres
        rw [Option.some.injEq] at hres
        subst hres
        dsimp only
        have hlr := ih _ _ _ _ hrec
        dsimp only at hlr
        simp only [List.length_cons]
        omega

lemma process_hit_stand_length (pol : Policy) (dc : Card) (idx : Nat) :
    ∀ (hands : List PlayerHand) (shoe : Shoe) (ps : List Player) (q : QLearner)
      (res : List PlayerHand × Shoe × List Player × QLearner),
      process_hit_stand pol dc idx hands shoe ps q = some res →
      res.1.length ≤ hands.length := by
  intro hands
  induction hands with
  | nil =>
    intro shoe ps q res hres
    simp only [process_hit_stand, Option.some.injEq] at hres
    subst hres
    exact Nat.le_refl 0
  | cons hand rest ih =>
    intro shoe ps q res hres
    simp only [process_hit_stand, Option.bind_eq_bind] at hres
    by_cases hdbl : hand.is_doubled = true
    · rw [if_pos hdbl] at hres
      obtain ⟨⟨rest1, shoe1, ps1, q1⟩, hrec, hres⟩ := Option.bind_eq_some.mp hres
      dsimp only at hres
      rw [Option.some.injEq] at hres
      subst hres
      dsimp only
      have hlr := ih _ _ _ _ hrec
      dsimp only at hlr
      simp only [List.length_cons]
      omega
    · rw [if_neg hdbl] at hres
      obtain ⟨⟨hopt, shoe1, ps1, q1⟩, hloop, hres⟩ := Option.bind_eq_some.mp hres
      dsimp only at hres
      obtain ⟨⟨rest1, shoe2, ps2, q2⟩, hrec, hres⟩ := Option.bind_eq_some.mp hres
      dsimp only at hres
      have hlr := ih _ _ _ _ hrec
      dsimp only at hlr
      rcases hopt with _ | h1
      · dsimp only at hres
        rw [Option.some.injEq] at hres
        subst hres
        dsimp only
        simp only [List.length_cons]
        omega
      · dsimp only at hres
        rw [Option.some.injEq] at hres
        subst hres
        dsimp only
        simp only [List.length_cons]
        omega

/-- Claim C7: a split is performed only while the active hand is a pair
with the spot holding fewer than MAX_RESPLIT = 4 hands (otherwise the
splitting step leaves the hands and the shoe exactly unchanged, in
particular when the spot already holds 4 hands, even if its hands are
still pairs); starting from a hand list containing the active hand with at
most 4 hands, splitting can never leave more than 4 hands; and the
doubling and hit-stand phases never increase the hand count, so every
spot state reachable in a round holds at most 4 hands. -/
theorem resplit_ceiling :
    (∀ (pol : Policy) (dc : Card) (fuel : Nat) (hand : PlayerHand)
        (hands : List PlayerHand) (shoe : Shoe),
      ¬(hand.is_pair = true ∧ hands.length < MAX_RESPLIT) →
      process_splitting pol dc fuel hand hands shoe = some (hands, shoe)) ∧
    (∀ (pol : Policy) (dc : Card) (fuel : Nat) (hand : PlayerHand)
        (hands : List PlayerHand) (shoe : Shoe),
      hands.length = MAX_RESPLIT →
      process_splitting pol dc fuel hand hands shoe = some (hands, shoe)) ∧
    (∀ (pol : Policy) (dc : Card) (fuel : Nat) (hand : PlayerHand)
        (hands : List PlayerHand) (shoe : Shoe) (res : List PlayerHand × Shoe),
      process_splitting pol dc fuel hand hands shoe = some res →
      hand ∈ hands → hands.length ≤ MAX_RESPLIT → res.1.length ≤ MAX_RESPLIT) ∧
    (∀ (pol : Policy) (dc : Card) (idx : Nat) (hands : List PlayerHand) (shoe : Shoe)
        (ps : List Player) (q : QLearner)
        (res : List PlayerHand × Shoe × List Player × QLearner),
      process_double_downs pol dc idx hands shoe ps q = some res →
      res.1.length ≤ hands.length) ∧
    (∀ (pol : Policy) (dc : Card) (idx : Nat) (hands : List PlayerHand) (shoe : Shoe)
        (ps : List Player) (q : QLearner)
        (res : List PlayerHand × Shoe × List Player × QLearner),
      process_hit_stand pol dc idx hands shoe ps q = some res →
      res.1.length ≤ hands.length) := by
  refine ⟨?_, ?_, ?_, ?_, ?_⟩
  · intro pol dc fuel hand hands shoe hng
    exact process_splitting_guard pol dc fuel hand hands shoe hng
  · intro pol dc fuel hand hands shoe h4
    refine process_splitting_guard pol dc fuel hand hands shoe ?_
    rintro ⟨-, hlt⟩
    rw [h4] at hlt
    exact absurd hlt (Nat.lt_irrefl _)
  · intro pol dc fuel hand hands shoe res hres hmem hlen
    exact process_splitting_length pol dc fuel hand hands shoe res hres
      (hand_count_pos_of_mem hands hand hmem) hlen
  · intro pol dc idx hands shoe ps q res hres
    exact process_double_downs_length pol dc idx hands shoe ps q res hres
  · intro pol dc idx hands shoe ps q res hres
    exact process_hit_stand_length pol dc idx hands shoe ps q res hres

theorem resplit_ceiling_witness :
    process_splitting pol_witness ⟨.TWO, .CLUBS⟩ MAX_RESPLIT c7_nonpair_hand
      [c7_nonpair_hand] c6_shoe = some ([c7_nonpair_hand], c6_shoe) ∧
    process_splitting pol_witness ⟨.TWO, .CLUBS⟩ MAX_RESPLIT c7_pair_hand
      [c7_pair_hand, c7_pair_hand, c7_pair_hand, c7_pair_hand] c6_shoe =
      some ([c7_pair_hand, c7_pair_hand, c7_pair_hand, c7_pair_hand], c6_shoe) ∧
    (∀ res : List PlayerHand × Shoe,
      process_splitting pol_witness ⟨.TWO, .CLUBS⟩ MAX_RESPLIT c7_pair_hand
        [c7_pair_hand] c6_shoe = some res → res.1.length ≤ MAX_RESPLIT) ∧
    (∀ res : List PlayerHand × Shoe × List Player × QLearner,
      process_double_downs pol_witness ⟨.TWO, .CLUBS⟩ 0 [c7_nonpair_hand] c6_shoe
        [john] q_witness = some res → res.1.length ≤ 1) ∧
    (∀ res : List PlayerHand × Shoe × List Player × QLearner,
      process_hit_stand pol_witness ⟨.TWO, .CLUBS⟩ 0 [c7_nonpair_hand] c6_shoe
        [john] q_witness = some res → res.1.length ≤ 1) :=
  ⟨resplit_ceiling.1 pol_witness ⟨.TWO, .CLUBS⟩ MAX_RESPLIT c7_nonpair_hand
      [c7_nonpair_hand] c6_shoe (by decide),
   resplit_ceiling.2.1 pol_witness ⟨.TWO, .CLUBS⟩ MAX_RESPLIT c7_pair_hand
      [c7_pair_hand, c7_pair_hand, c7_pair_hand, c7_pair_hand] c6_shoe (by decide),
   fun res hres => resplit_ceiling.2.2.1 pol_witness ⟨.TWO, .CLUBS⟩ MAX_RESPLIT c7_pair_hand
      [c7_pair_hand] c6_shoe res hres (by decide) (by decide),
   fun res hres => resplit_ceiling.2.2.2.1 pol_witness ⟨.TWO, .CLUBS⟩ 0 [c7_nonpair_hand]
      c6_shoe [john] q_witness res hres,
   fun res hres => resplit_ceiling.2.2.2.2 pol_witness ⟨.TWO, .CLUBS⟩ 0 [c7_nonpair_hand]
      c6_shoe [john] q_witness res hres⟩

/- ------------------------------------------------------------------ -/
/- Learner-update frame lemmas and theorem -/
/- ------------------------------------------------------------------ -/

lemma process_decisions_tables (h : PlayerHand) (b : Bool) (q : QLearner) :
    learner_tables (h.process_decisions b q) = learner_tables q := rfl

lemma settle_hand_win_tables (i : Nat) (h : PlayerHand) (acc : List Player × QLearner) :
    learner_tables (settle_hand_win i h acc).2 = learner_tables acc.2 := rfl

lemma settle_hand_compare_tables (d : Hand) (i : Nat) (h : PlayerHand)
    (acc : List Player × QLearner) :
    learner_tables (settle_hand_compare d i h acc).2 = learner_tables acc.2 := by
  unfold settle_hand_compare
  split
  · rfl
  · split
    · rfl
    · rfl

lemma foldl_tables_preserved {α : Type} (f : (List Player × QLearner) → α → (List Player × QLearner))
    (hf : ∀ acc a, learner_tables (f acc a).2 = learner_tables acc.2) :
    ∀ (l : List α) (acc : List Player × QLearner),
      learner_tables ((l.foldl f acc)).2 = learner_tables acc.2 := by
  intro l
  induction l with
  | nil => intro acc; rfl
  | cons a rest ih =>
    intro acc
    rw [List.foldl_cons, ih, hf]

lemma settlement_phase_tables (dealer : Hand) (spots : List Spot)
    (ps : List Player) (q : QLearner) :
    learner_tables (settlement_phase dealer spots ps q).2 = learner_tables q := by
  unfold settlement_phase
  split
  · exact foldl_tables_preserved _
      (fun acc s => foldl_tables_preserved _
        (fun acc2 h => settle_hand_win_tables s.player_idx h acc2) s.hands acc)
      spots (ps, q)
  · exact foldl_tables_preserved _
      (fun acc s => foldl_tables_preserved _
        (fun acc2 h => settle_hand_compare_tables dealer s.player_idx h acc2) s.hands acc)
      spots (ps, q)

lemma process_double_downs_tables (pol : Policy) (dc : Card) (idx : Nat) :
    ∀ (hands : List PlayerHand) (shoe : Shoe) (ps : List Player) (q : QLearner)
      (res : List PlayerHand × Shoe × List Player × QLearner),
      process_double_downs pol dc idx hands shoe ps q = some res →
      learner_tables res.2.2.2 = learner_tables q := by
  intro hands
  induction hands with
  | nil =>
    intro shoe ps q res hres
    simp only [process_double_downs, Option.some.injEq] at hres
    subst hres
    rfl
  | cons hand rest ih =>
    intro shoe ps q res hres
    simp only [process_double_downs, Option.bind_eq_bind] at hres
    by_cases hwd : pol.doubles hand dc = true
    · rw [if_pos hwd] at hres
      obtain ⟨⟨dcard, s1⟩, hdeal, hres⟩ := Option.bind_eq_some.mp hres
      simp only [Option.some_bind] at hres
      split at hres
      · obtain ⟨⟨rest1, shoe2, ps2, q2⟩, hrec, hres⟩ := Option.bind_eq_some.mp hres
        dsimp only at hres
        rw [Option.some.injEq] at hres
        subst hres
        exact (ih _ _ _ _ hrec).trans rfl
      · obtain ⟨⟨rest1, shoe2, ps2, q2⟩, hrec, hres⟩ := Option.bind_eq_some.mp hres
        dsimp only at hres
        rw [Option.some.injEq] at hres
        subst hres
        exact (ih _ _ _ _ hrec).trans rfl
    · rw [if_neg hwd] at hres
      simp only [Option.some_bind] at hres
      split at hres
      · obtain ⟨⟨rest1, shoe2, ps2, q2⟩, hrec, hres⟩ := Option.bind_eq_some.mp hres
        dsimp only at hres
        rw [Option.some.injEq] at hres
        subst hres
        exact (ih _ _ _ _ hrec).trans rfl
      · obtain ⟨⟨rest1, shoe2, ps2, q2⟩, hrec, hres⟩ := Option.bind_eq_some.mp hres
        dsimp only at hres
        rw [Option.some.injEq] at hres
        subst hres
        exact (ih _ _ _ _ hrec).trans rfl

lemma hit_loop_tables (pol : Policy) (dc : Card) (idx : Nat) :
    ∀ (fuel : Nat) (hand : PlayerHand) (shoe : Shoe) (ps : List Player) (q : QLearner)
      (res : Option PlayerHand × Shoe × List Player × QLearner),
      hit_loop pol dc idx fuel hand shoe ps q = some res →
      learner_tables res.2.2.2 = learner_tables q := by
  intro fuel
  induction fuel with
  | zero =>
    intro hand shoe ps q res hres
    exact Option.noConfusion hres
  | succ fuel ih =>
    intro hand shoe ps q res hres
    simp only [hit_loop, Option.bind_eq_bind] at hres
    by_cases hb : hand.is_bust = true
    · rw [if_pos hb, Option.some.injEq] at hres
      subst hres
      rfl
    · rw [if_neg hb] at hres
      by_cases hh : pol.hits hand dc = true
      · rw [if_pos hh] at hres
        obtain ⟨⟨hitc, shoe1⟩, hdeal, hres⟩ := Option.bind_eq_some.mp hres
        dsimp only at hres
        split at hres
        · rw [Option.some.injEq] at hres
          subst hres
          rfl
        · exact ih _ _ _ _ _ hres
      · rw [if_neg hh, Option.some.injEq] at hres
        subst hres
        rfl

lemma process_hit_stand_tables (pol : Policy) (dc : Card) (idx : Nat) :
    ∀ (hands : List PlayerHand) (shoe : Shoe) (ps : List Player) (q : QLearner)
      (res : List PlayerHand × Shoe × List Player × QLearner),
      process_hit_stand pol dc idx hands shoe ps q = some res →
      learner_tables res.2.2.2 = learner_tables q := by
  intro hands
  induction hands with
  | nil =>
    intro shoe ps q res hres
    simp only [process_hit_stand, Option.some.injEq] at hres
    subst hres
    rfl
  | cons hand rest ih =>
    intro shoe ps q res hres
    simp only [process_hit_stand, Option.bind_eq_bind] at hres
    by_cases hdbl : hand.is_doubled = true
    · rw [if_pos hdbl] at hres
      obtain ⟨⟨rest1, shoe1, ps1, q1⟩, hrec, hres⟩ := Option.bind_eq_some.mp hres
      dsimp only at hres
      rw [Option.some.injEq] at hres
      subst hres
      exact (ih _ _ _ _ hrec).trans rfl
    · rw [if_neg hdbl] at hres
      obtain ⟨⟨hopt, shoe1, ps1, q1⟩, hloop, hres⟩ := Option.bind_eq_some.mp hres
      dsimp only at hres
      obtain ⟨⟨rest1, shoe2, ps2, q2⟩, hrec, hres⟩ := Option.bind_eq_some.mp hres
      dsimp only at hres
      have h1 := hit_loop_tables pol dc idx _ _ _ _ _ _ hloop
      have h2 := ih _ _ _ _ hrec
      dsimp only at h1 h2
      rcases hopt with _ | hkept
      · dsimp only at hres
        rw [Option.some.injEq] at hres
        subst hres
        dsimp only
        rw [h2, h1]
      · dsimp only at hres
        rw [Option.some.injEq] at hres
        subst hres
        dsimp only
        rw [h2, h1]

lemma process_spots_tables (pol : Policy) (dc : Card) :
    ∀ (spots : List Spot) (shoe : Shoe) (ps : List Player) (q : QLearner)
      (res : List Spot × Shoe × List Player × QLearner),
      process_spots pol dc spots shoe ps q = some res →
      learner_tables res.2.2.2 = learner_tables q := by
  intro spots
  induction spots with
  | nil =>
    intro shoe ps q res hres
    simp only [process_spots, Option.some.injEq] at hres
    subst hres
    rfl
  | cons s rest ih =>
    intro shoe ps q res hres
    simp only [process_spots, Option.bind_eq_bind] at hres
    rcases hsh : s.hands with _ | ⟨h0, hs'⟩
    · rw [hsh] at hres
      obtain ⟨⟨rest1, shoe1, ps1, q1⟩, hrec, hres⟩ := Option.bind_eq_some.mp hres
      dsimp only at hres
      rw [Option.some.injEq] at hres
      subst hres
      exact (ih _ _ _ _ hrec).trans rfl
    · rw [hsh] at hres
      obtain ⟨⟨hands1, shoe1⟩, hsplit1, hres⟩ := Option.bind_eq_some.mp hres
      dsimp only at hres
      obtain ⟨⟨hands2, shoe2, ps2, q2⟩, hdd, hres⟩ := Option.bind_eq_some.mp hres
      dsimp only at hres
      obtain ⟨⟨hands3, shoe3, ps3, q3⟩, hhs, hres⟩ := Option.bind_eq_some.mp hres
      dsimp only at hres
      obtain ⟨⟨rest1, shoe4, ps4, q4⟩, hrec, hres⟩ := Option.bind_eq_some.mp hres
      dsimp only at hres
      rw [Option.some.injEq] at hres
      subst hres
      dsimp only
      have h1 := process_double_downs_tables pol dc s.player_idx _ _ _ _ _ hdd
      have h2 := process_hit_stand_tables pol dc s.player_idx _ _ _ _ _ hhs
      have h3 := ih _ _ _ _ hrec
      dsimp only at h1 h2 h3
      rw [h3, h2, h1]

/-- Claim C8 counterexample: decisions recorded in a round reach only the
learner's pending lists, so after a round that neither empties the shoe nor
pushes every hand, the pending hit-stand list is non-empty while the next
round is about to begin (cut_card_out still false), refuting the claim that
the pending decision lists are empty whenever the next round begins. -/
theorem learner_pending_after_round_cex :
    ¬ (∀ (pol : Policy) (g g1 : Game), g.process_round pol = some g1 →
        g1.shoe.cut_card_out = false → g1.q.hit_stand_decisions = []) := by
  intro hall
  have h1 : c8_game.process_round pol_witness = some c8_after := rfl
  have h2 := hall pol_witness c8_game c8_after h1 (by decide)
  exact absurd h2 (by decide)

/-- Claim C8 (amended): process_round never touches the learner's tables
(per-key branch counts, summed discounted rewards, derived best-action
values) — evaluated decisions only accumulate in the pending lists; the
tables are updated from the pending decisions at the end of each shoe in
play_entire_shoe, which discards them, so the three pending decision lists
are empty whenever the next shoe begins. -/
theorem learner_updates_per_shoe :
    (∀ (pol : Policy) (g g1 : Game), g.process_round pol = some g1 →
      learner_tables g1.q = learner_tables g.q) ∧
    (∀ (pol : Policy) (fuel : Nat) (g g1 : Game),
      g.play_entire_shoe pol fuel = some g1 →
      g1.q.split_decisions = [] ∧ g1.q.double_decisions = [] ∧
      g1.q.hit_stand_decisions = []) := by
  constructor
  · intro pol g g1 hg
    simp only [Game.process_round, Option.bind_eq_bind] at hg
    obtain ⟨⟨dc, shoe1⟩, hdeal, hg⟩ := Option.bind_eq_some.mp hg
    dsimp only at hg
    rcases dc with _ | ⟨c0, _ | ⟨c1, _ | ⟨c2, dcrest⟩⟩⟩
    · exact Option.noConfusion hg
    · exact Option.noConfusion hg
    · dsimp only at hg
      obtain ⟨⟨spots1, shoe2⟩, hdh, hg⟩ := Option.bind_eq_some.mp hg
      dsimp only at hg
      split at hg
      · rw [Option.some.injEq] at hg
        subst hg
        rfl
      · obtain ⟨⟨spots3, shoe3, ps3, q3⟩, hps, hg⟩ := Option.bind_eq_some.mp hg
        dsimp only at hg
        obtain ⟨⟨dealerF, shoe4⟩, hdd, hg⟩ := Option.bind_eq_some.mp hg
        dsimp only at hg
        rw [Option.some.injEq] at hg
        subst hg
        dsimp only
        have h1 := process_spots_tables pol c1 _ _ _ _ _ hps
        dsimp only at h1
        rw [settlement_phase_tables, h1]
    · exact Option.noConfusion hg
  · intro pol fuel g g1 hg
    unfold Game.play_entire_shoe at hg
    obtain ⟨g2, -, hmap⟩ := Option.map_eq_some'.mp hg
    subst hmap
    exact ⟨rfl, rfl, rfl⟩

theorem learner_updates_per_shoe_witness :
    learner_tables c8_after.q = learner_tables c8_game.q ∧
    (c8b_result.q.split_decisions = [] ∧ c8b_result.q.double_decisions = [] ∧
      c8b_result.q.hit_stand_decisions = []) :=
  ⟨learner_updates_per_shoe.1 pol_witness c8_game c8_after rfl,
   learner_updates_per_shoe.2 pol_witness 2 c8b_game c8b_result rfl⟩

end Blackjack
